import Mathlib

/-!
Verification of the two batch-processing scripts in this repository:
an audio-folder transcriber (audioToText2.py) and a video-to-audio
extractor (VideoToAudio.py).  The Python code is shallowly embedded:
paths and console lines are `String`s (directory paths sometimes as
component lists), machine arithmetic is exact (`Nat`/`Int`/`Rat`),
external effects (filesystem, ffmpeg/ffprobe, the speech service) are
oracles passed in explicitly, and code that can raise an uncaught
Python exception returns `Except`.  String manipulation is carried out
on the underlying `List Char` so that everything evaluates inside the
kernel.
-/

/-! ### String constants used by the scripts -/

def tempWav : String := "temp.wav"

def slashStr : String := "/"

def dotStr : String := "."

def colonStr : String := ":"

def spaceStr : String := " "

def nlStr : String := "\n"

def timeMarker : String := "time="

def dotChar : Char := '.'

/-! ### Python string/path primitives
`pyLower` models `str.lower` (ASCII inputs here), `pyEndsWith` models
`str.endswith`, `pyStartsWith` models `str.startswith`, `pyJoin` models
`posixpath.join` on two components, `pySplitOn` models `str.split(sep)`
for a non-empty separator (split at every non-overlapping occurrence,
keeping empty pieces), and `pySplitWs` models `str.split()` with no
argument (split on whitespace runs, dropping empty pieces). -/

def pyLower (s : String) : String := String.mk (s.data.map Char.toLower)

def pyEndsWith (s suffix : String) : Bool := decide (suffix.data <:+ s.data)

def pyStartsWith (s pre : String) : Bool := decide (pre.data <+: s.data)

def pyJoin (a b : String) : String :=
  if pyStartsWith b slashStr then b
  else if a = "" then b
  else if pyEndsWith a slashStr then a ++ b
  else a ++ slashStr ++ b

def pySplitOnAux (sep : List Char) : ℕ → List Char → List Char → List (List Char)
  | _, [], acc => [acc.reverse]
  | 0, l, acc => [acc.reverse ++ l]
  | fuel + 1, c :: rest, acc =>
    if sep ≠ [] ∧ sep.isPrefixOf (c :: rest) then
      acc.reverse :: pySplitOnAux sep fuel ((c :: rest).drop sep.length) []
    else
      pySplitOnAux sep fuel rest (c :: acc)

/-- The fuel argument (structural recursion so that the definition
computes inside the kernel) starts at the string's length; every step
consumes at least one character and one unit of fuel, so the
fuel-exhausted fallback is never reached. -/
def pySplitOn (s sep : String) : List String :=
  (pySplitOnAux sep.data s.data.length s.data []).map String.mk

def pySplitWs (s : String) : List String :=
  ((s.data.splitOnP Char.isWhitespace).filter (fun t => t != [])).map String.mk

/-- Python `float(...)` restricted to the unsigned decimal-digit tokens
that appear in ffmpeg `HH:MM:SS` timestamps; every other token is
mapped to `none`, the model of an uncaught-by-value `ValueError`. -/
def parseNat (s : String) : Option Nat :=
  if s.data ≠ [] ∧ s.data.all Char.isDigit then
    some (s.data.foldl (fun n c => 10 * n + (c.toNat - 48)) 0)
  else none

/-- Index of the dot starting the extension in the sense of
`os.path.splitext`, applied to a bare file name (no separators): the
last dot, provided some earlier character of the name is not a dot
(leading dots are part of the root, so `.mp4` has no extension). -/
def lastExtDotIdx (s : String) : Option Nat :=
  match s.data.reverse.findIdx? (fun c => c == dotChar) with
  | none => none
  | some j =>
      let k := s.data.length - 1 - j
      if (s.data.take k).any (fun c => c != dotChar) then some k else none

/-- The extension part of `os.path.splitext` for a bare file name. -/
def splitextExt (s : String) : String :=
  match lastExtDotIdx s with
  | none => ""
  | some k => String.mk (s.data.drop k)

/-- The root part of `os.path.splitext` for a bare file name. -/
def splitextRoot (s : String) : String :=
  match lastExtDotIdx s with
  | none => s
  | some k => String.mk (s.data.take k)

/-! ### Folder scanners (audioToText2.py lines 66-70, VideoToAudio.py
lines 129-136).  The filesystem listing/walk is abstracted to the list
of file names it yields; the predicates below are the per-name filters
the scripts apply to that list. -/

def audioExtensions : List String :=
  [".mp3", ".wav", ".m4a", ".flac", ".aac", ".ogg", ".wma"]

def videoExtensions : List String :=
  [".mp4", ".avi", ".mov", ".mkv", ".wmv", ".flv", ".webm", ".m4v", ".3gp"]

/-- audioToText2.py line 70:
`os.path.splitext(f.lower())[1] in audio_extensions`. -/
def audioFilter (f : String) : Bool :=
  decide (splitextExt (pyLower f) ∈ audioExtensions)

/-- VideoToAudio.py line 135:
`any(file.lower().endswith(ext) for ext in video_extensions)`. -/
def videoFilter (f : String) : Bool :=
  videoExtensions.any (fun e => pyEndsWith (pyLower f) e)

/-! ### Helper lemmas about splitext -/

lemma splitextExt_eq_empty_or_drop (s : String) :
    splitextExt s = "" ∨ ∃ k, splitextExt s = String.mk (s.data.drop k) := by
  unfold splitextExt
  cases h : lastExtDotIdx s with
  | none => exact Or.inl rfl
  | some k => exact Or.inr ⟨k, rfl⟩

def dotMp4Name : String := ".mp4"

def clipUpperName : String := "CLIP.MP4"

/-- C4 counterexample: the file named `.mp4` is discovered by the video
scanner, yet its extension — in the `os.path.splitext` sense the
repository itself uses both for the audio filter and for output-path
derivation — is empty and hence not in the allow-list.  So the video
scanner does not discover "exactly those files whose extension is in
the allow-list". -/
theorem video_scanner_includes_extensionless_dotfile :
    videoFilter dotMp4Name = true ∧ splitextExt (pyLower dotMp4Name) ∉ videoExtensions := by
  constructor
  · decide
  · decide

/-- C4 (amended): the audio scanner keeps exactly the names whose
`splitext` extension (lower-cased) is in the audio allow-list; the
video scanner keeps at least every name whose `splitext` extension
(lower-cased) is in the video allow-list, but — as the counterexample
shows — also extensionless names such as `.mp4` that merely end with an
allowed suffix. -/
theorem scanner_extension_filter_amended (f : String) :
    audioFilter f = decide (splitextExt (pyLower f) ∈ audioExtensions)
    ∧ (splitextExt (pyLower f) ∈ videoExtensions → videoFilter f = true) := by
  refine ⟨rfl, fun h => ?_⟩
  rcases splitextExt_eq_empty_or_drop (pyLower f) with he | ⟨k, hk⟩
  · rw [he] at h
    simp [videoExtensions] at h
  · rw [hk] at h
    have hsuf : (String.mk ((pyLower f).data.drop k)).data <:+ (pyLower f).data :=
      List.drop_suffix k (pyLower f).data
    unfold videoFilter
    rw [List.any_eq_true]
    exact ⟨String.mk ((pyLower f).data.drop k), h, decide_eq_true hsuf⟩

/-- Witness for the amended C4 theorem: an upper-case `.MP4` name is
accepted by the video scanner via its (lower-cased) extension. -/
theorem scanner_extension_filter_amended_witness :
    videoFilter clipUpperName = true :=
  (scanner_extension_filter_amended clipUpperName).2 (by decide)

/-! ### Chunked transcription (audioToText2.py lines 15-59)
The loaded audio is abstracted to its length in milliseconds
(`len(audio)` in pydub).  The script computes
`duration = len(audio) / 1000`, `chunks = math.ceil(duration / 30)`
(the default `chunk_duration=30` is what `main` uses) and slices
`audio[i*C*1000 : min((i+1)*C*1000, len(audio))]`. -/

def numChunks (lenMs C : ℕ) : ℕ := ⌈(lenMs : ℚ) / 1000 / C⌉₊

def chunkStart (C i : ℕ) : ℕ := i * C * 1000

def chunkEnd (lenMs C i : ℕ) : ℕ := min ((i + 1) * C * 1000) lenMs

lemma chunkStart_eq (C i : ℕ) : chunkStart C i = i * (C * 1000) := by
  unfold chunkStart; ring

lemma chunkEnd_eq (lenMs C i : ℕ) :
    chunkEnd lenMs C i = min ((i + 1) * (C * 1000)) lenMs := by
  unfold chunkEnd
  congr 1
  ring

lemma numChunks_spec (lenMs C : ℕ) (h : 0 < C) :
    lenMs ≤ numChunks lenMs C * (C * 1000) ∧
    (0 < lenMs → (numChunks lenMs C - 1) * (C * 1000) < lenMs) := by
  have hC : (0 : ℚ) < (C : ℚ) := by exact_mod_cast h
  have hKpos : (0 : ℚ) < 1000 * (C : ℚ) := by positivity
  constructor
  · have hle : ((lenMs : ℚ) / 1000 / C) ≤ (numChunks lenMs C : ℚ) := Nat.le_ceil _
    rw [div_div, div_le_iff hKpos] at hle
    have h2 : (lenMs : ℚ) ≤ ((numChunks lenMs C * (C * 1000) : ℕ) : ℚ) := by
      push_cast
      nlinarith [hle]
    exact_mod_cast h2
  · intro hpos
    by_contra hcon
    push_neg at hcon
    have hx : ((lenMs : ℚ) / 1000 / C) ≤ ((numChunks lenMs C - 1 : ℕ) : ℚ) := by
      rw [div_div, div_le_iff hKpos]
      have : (lenMs : ℚ) ≤ (((numChunks lenMs C - 1) * (C * 1000) : ℕ) : ℚ) := by
        exact_mod_cast hcon
      push_cast at this
      nlinarith [this]
    have hle2 : numChunks lenMs C ≤ numChunks lenMs C - 1 := Nat.ceil_le.mpr hx
    have hxpos : (0 : ℚ) < (lenMs : ℚ) / 1000 / C := by
      have : (0 : ℚ) < (lenMs : ℚ) := by exact_mod_cast hpos
      positivity
    have hnpos : 0 < numChunks lenMs C := Nat.ceil_pos.mpr hxpos
    omega

lemma ceil_char_unique (K L n1 n2 : ℕ) (hK : 0 < K) (hpos : 0 < L)
    (h1a : L ≤ n1 * K) (h1b : (n1 - 1) * K < L)
    (h2a : L ≤ n2 * K) (h2b : (n2 - 1) * K < L) : n1 = n2 := by
  have h1 : n1 - 1 < n2 := Nat.lt_of_mul_lt_mul_right (lt_of_lt_of_le h1b h2a)
  have h2 : n2 - 1 < n1 := Nat.lt_of_mul_lt_mul_right (lt_of_lt_of_le h2b h1a)
  have hn1 : 0 < n1 := by
    rcases Nat.eq_zero_or_pos n1 with h0 | h0
    · rw [h0, Nat.zero_mul] at h1a; omega
    · exact h0
  have hn2 : 0 < n2 := by
    rcases Nat.eq_zero_or_pos n2 with h0 | h0
    · rw [h0, Nat.zero_mul] at h2a; omega
    · exact h0
  omega

lemma ceilDiv_char (K L : ℕ) (hK : 0 < K) :
    L ≤ ((L + K - 1) / K) * K ∧ (0 < L → ((L + K - 1) / K - 1) * K < L) := by
  have hdm := Nat.div_add_mod (L + K - 1) K
  have hr : (L + K - 1) % K < K := Nat.mod_lt _ hK
  obtain ⟨m, hm⟩ : ∃ m, K * ((L + K - 1) / K) = m := ⟨_, rfl⟩
  rw [hm] at hdm
  constructor
  · rw [mul_comm, hm]
    omega
  · intro hpos
    rw [tsub_mul, one_mul, mul_comm, hm]
    omega

lemma numChunks_eq_ceilDiv (lenMs C : ℕ) (h : 0 < C) :
    numChunks lenMs C = (lenMs + C * 1000 - 1) / (C * 1000) := by
  have hK : 0 < C * 1000 := by positivity
  rcases Nat.eq_zero_or_pos lenMs with h0 | hpos
  · subst h0
    have hlhs : numChunks 0 C = 0 := by
      unfold numChunks
      simp
    rw [hlhs]
    have : 0 + C * 1000 - 1 < C * 1000 := by omega
    rw [Nat.div_eq_of_lt this]
  · have hspec := numChunks_spec lenMs C h
    have hchar := ceilDiv_char (C * 1000) lenMs hK
    exact ceil_char_unique (C * 1000) lenMs _ _ hK hpos
      hspec.1 (hspec.2 hpos) hchar.1 (hchar.2 hpos)

lemma numChunks_pos_of_len_pos (lenMs C : ℕ) (h : 0 < C) (hpos : 0 < lenMs) :
    0 < numChunks lenMs C := by
  have hspec := numChunks_spec lenMs C h
  rcases Nat.eq_zero_or_pos (numChunks lenMs C) with h0 | h0
  · rw [h0, Nat.zero_mul] at hspec
    omega
  · exact h0

lemma len_pos_of_numChunks_pos (lenMs C : ℕ) (h : 0 < C)
    (hn : 0 < numChunks lenMs C) : 0 < lenMs := by
  rcases Nat.eq_zero_or_pos lenMs with h0 | h0
  · subst h0
    have : numChunks 0 C = 0 := by unfold numChunks; simp
    omega
  · exact h0

/-- The testable chunking properties from the spec, stated over the
millisecond timeline: the computed chunk count agrees with the natural
ceiling division, time windows are adjacent, pairwise non-overlapping,
each non-final window is exactly `C` seconds long, the final window
ends at the audio's end and has length `D mod C` (or a full `C` when
`C` divides `D`), and the windows exactly cover `[0, D)`. -/
def chunkSpec (lenMs C : ℕ) : Prop :=
  numChunks lenMs C = (lenMs + C * 1000 - 1) / (C * 1000)
  ∧ (∀ i, i + 1 < numChunks lenMs C → chunkEnd lenMs C i = chunkStart C (i + 1))
  ∧ (∀ i j, i < j → chunkEnd lenMs C i ≤ chunkStart C j)
  ∧ (∀ i, i + 1 < numChunks lenMs C → chunkEnd lenMs C i - chunkStart C i = C * 1000)
  ∧ (0 < numChunks lenMs C →
      chunkEnd lenMs C (numChunks lenMs C - 1) = lenMs ∧
      chunkEnd lenMs C (numChunks lenMs C - 1) - chunkStart C (numChunks lenMs C - 1) =
        (if lenMs % (C * 1000) = 0 then C * 1000 else lenMs % (C * 1000)))
  ∧ (∀ i, i < numChunks lenMs C → chunkStart C i < chunkEnd lenMs C i ∧ chunkEnd lenMs C i ≤ lenMs)
  ∧ (∀ t, t < lenMs → ∃ i, i < numChunks lenMs C ∧ chunkStart C i ≤ t ∧ t < chunkEnd lenMs C i)

/-- C2: for chunk duration `C > 0` the chunking of `transcribe_audio`
satisfies every property in `chunkSpec`. -/
theorem transcribe_chunking_spec (lenMs C : ℕ) (h : 0 < C) : chunkSpec lenMs C := by
  have hK : 0 < C * 1000 := by positivity
  have hspec := numChunks_spec lenMs C h
  set n := numChunks lenMs C with hn
  have hfull : ∀ i, i + 1 < n → (i + 1) * (C * 1000) ≤ lenMs := by
    intro i hi
    have hpos : 0 < lenMs := len_pos_of_numChunks_pos lenMs C h (by omega)
    have h1 : i + 1 ≤ n - 1 := by omega
    have h2 : (i + 1) * (C * 1000) ≤ (n - 1) * (C * 1000) :=
      Nat.mul_le_mul_right _ h1
    exact le_of_lt (lt_of_le_of_lt h2 (hspec.2 hpos))
  refine ⟨numChunks_eq_ceilDiv lenMs C h, ?_, ?_, ?_, ?_, ?_, ?_⟩
  · -- adjacency
    intro i hi
    rw [chunkEnd_eq, chunkStart_eq]
    exact min_eq_left (hfull i hi)
  · -- non-overlap
    intro i j hij
    rw [chunkEnd_eq, chunkStart_eq]
    refine le_trans (min_le_left _ _) ?_
    exact Nat.mul_le_mul_right _ (by omega)
  · -- non-final chunks have full length
    intro i hi
    rw [chunkEnd_eq, chunkStart_eq, min_eq_left (hfull i hi)]
    rw [add_one_mul]
    omega
  · -- final chunk
    intro hnpos
    have hpos : 0 < lenMs := len_pos_of_numChunks_pos lenMs C h hnpos
    have hlast : n - 1 + 1 = n := by omega
    have hend : chunkEnd lenMs C (n - 1) = lenMs := by
      rw [chunkEnd_eq, hlast]
      exact min_eq_right hspec.1
    refine ⟨hend, ?_⟩
    rw [hend, chunkStart_eq]
    have hdm := Nat.div_add_mod lenMs (C * 1000)
    have hr : lenMs % (C * 1000) < C * 1000 := Nat.mod_lt _ hK
    obtain ⟨q, r, hq, hrr⟩ : ∃ q r, q = lenMs / (C * 1000) ∧ r = lenMs % (C * 1000) :=
      ⟨_, _, rfl, rfl⟩
    rw [← hq, ← hrr] at hdm
    rw [← hrr] at hr ⊢
    by_cases hr0 : r = 0
    · -- C divides lenMs exactly: the final chunk is a full chunk
      rw [if_pos hr0]
      subst hr0
      have hLq : lenMs = q * (C * 1000) := by rw [mul_comm]; omega
      have hqpos : 0 < q := by
        rcases Nat.eq_zero_or_pos q with h0 | h0
        · rw [h0, Nat.zero_mul] at hLq; omega
        · exact h0
      have hqn : n = q := by
        refine ceil_char_unique (C * 1000) lenMs n q hK hpos hspec.1 (hspec.2 hpos) ?_ ?_
        · omega
        · rw [tsub_mul, one_mul]
          obtain ⟨m, hm⟩ : ∃ m, q * (C * 1000) = m := ⟨_, rfl⟩
          rw [hm]
          rw [hm] at hLq
          omega
      rw [← hn, hqn, tsub_mul, one_mul]
      have hge : C * 1000 ≤ q * (C * 1000) := Nat.le_mul_of_pos_left _ hqpos
      obtain ⟨m, hm⟩ : ∃ m, q * (C * 1000) = m := ⟨_, rfl⟩
      rw [hm]
      rw [hm] at hLq hge
      omega
    · -- a strict remainder: the final chunk has length lenMs mod (C*1000)
      rw [if_neg hr0]
      have hqn : n = q + 1 := by
        refine ceil_char_unique (C * 1000) lenMs n (q + 1) hK hpos hspec.1 (hspec.2 hpos) ?_ ?_
        · rw [add_one_mul]
          obtain ⟨m, hm⟩ : ∃ m, q * (C * 1000) = m := ⟨_, rfl⟩
          rw [hm]
          rw [mul_comm] at hdm
          rw [hm] at hdm
          omega
        · simp only [Nat.add_sub_cancel]
          rw [mul_comm] at hdm
          obtain ⟨m, hm⟩ : ∃ m, q * (C * 1000) = m := ⟨_, rfl⟩
          rw [hm]
          rw [hm] at hdm
          omega
      rw [← hn, hqn]
      simp only [Nat.add_sub_cancel]
      rw [mul_comm] at hdm
      obtain ⟨m, hm⟩ : ∃ m, q * (C * 1000) = m := ⟨_, rfl⟩
      rw [hm]
      rw [hm] at hdm
      omega
  · -- windows stay inside [0, lenMs) and are nonempty
    intro i hi
    have hpos : 0 < lenMs := len_pos_of_numChunks_pos lenMs C h (by omega)
    constructor
    · rw [chunkEnd_eq, chunkStart_eq]
      apply lt_min
      · have : i * (C * 1000) < i * (C * 1000) + (C * 1000) := by omega
        rw [add_one_mul]
        omega
      · have h1 : i ≤ n - 1 := by omega
        have h2 : i * (C * 1000) ≤ (n - 1) * (C * 1000) := Nat.mul_le_mul_right _ h1
        exact lt_of_le_of_lt h2 (hspec.2 hpos)
    · rw [chunkEnd_eq]
      exact min_le_right _ _
  · -- coverage of [0, lenMs)
    intro t ht
    refine ⟨t / (C * 1000), ?_, ?_, ?_⟩
    · have hdm := Nat.div_add_mod t (C * 1000)
      obtain ⟨m, hm⟩ : ∃ m, (C * 1000) * (t / (C * 1000)) = m := ⟨_, rfl⟩
      rw [hm] at hdm
      have hstart : t / (C * 1000) * (C * 1000) ≤ t := by rw [mul_comm, hm]; omega
      have hlt : t / (C * 1000) * (C * 1000) < n * (C * 1000) :=
        lt_of_le_of_lt hstart (lt_of_lt_of_le ht hspec.1)
      exact Nat.lt_of_mul_lt_mul_right hlt
    · rw [chunkStart_eq]
      have hdm := Nat.div_add_mod t (C * 1000)
      obtain ⟨m, hm⟩ : ∃ m, (C * 1000) * (t / (C * 1000)) = m := ⟨_, rfl⟩
      rw [hm] at hdm
      rw [mul_comm, hm]
      omega
    · rw [chunkEnd_eq]
      apply lt_min
      · have hdm := Nat.div_add_mod t (C * 1000)
        have hr : t % (C * 1000) < C * 1000 := Nat.mod_lt _ hK
        rw [add_one_mul]
        obtain ⟨m, hm⟩ : ∃ m, (C * 1000) * (t / (C * 1000)) = m := ⟨_, rfl⟩
        rw [hm] at hdm
        rw [mul_comm, hm]
        omega
      · exact ht

/-- Witness for C2 at a concrete input: 75.5 seconds of audio with the
default 30-second chunks. -/
theorem transcribe_chunking_spec_witness : 0 < 30 ∧ chunkSpec 75500 30 :=
  ⟨by decide, transcribe_chunking_spec 75500 30 (by decide)⟩

/-! ### Per-chunk recognition outcomes (audioToText2.py lines 44-59)
`recognizer.recognize_google` either returns text, raises
`sr.UnknownValueError` (unintelligible audio) or raises
`sr.RequestError` (service failure); the script appends the text on
success and only prints a message in the two failure cases. -/

inductive ChunkOutcome where
  | ok (text : String)
  | unknownValue
  | requestError (msg : String)

def recognizedText : ChunkOutcome → Option String
  | ChunkOutcome.ok t => some t
  | ChunkOutcome.unknownValue => none
  | ChunkOutcome.requestError _ => none

/-- The `full_transcript` list built by the chunk loop, in increasing
chunk order: text is appended on success, nothing on either failure. -/
def chunkTexts (oracle : ℕ → ChunkOutcome) (n : ℕ) : List String :=
  (List.range n).foldl
    (fun acc i =>
      match oracle i with
      | ChunkOutcome.ok t => acc ++ [t]
      | _ => acc) []

/-- audioToText2.py lines 26-59: `" ".join(full_transcript)` over all
chunks of the file. -/
def transcribe_audio (lenMs C : ℕ) (oracle : ℕ → ChunkOutcome) : String :=
  String.intercalate spaceStr (chunkTexts oracle (numChunks lenMs C))

lemma chunkTexts_eq_filterMap (oracle : ℕ → ChunkOutcome) (n : ℕ) :
    chunkTexts oracle n = (List.range n).filterMap (fun i => recognizedText (oracle i)) := by
  suffices hgen : ∀ (l : List ℕ) (acc : List String),
      l.foldl
        (fun acc i =>
          match oracle i with
          | ChunkOutcome.ok t => acc ++ [t]
          | _ => acc) acc
        = acc ++ l.filterMap (fun i => recognizedText (oracle i)) by
    simpa [chunkTexts] using hgen (List.range n) []
  intro l
  induction l with
  | nil => intro acc; simp
  | cons x xs ih =>
      intro acc
      cases hx : oracle x <;> simp [hx, ih, recognizedText]

/-- C3: the per-file transcript is the recognized texts of the
successful chunks, in strictly increasing chunk (time) order, joined
by single spaces; failed chunks contribute nothing, and neither
failure kind stops the loop over the remaining chunks. -/
theorem transcript_join_order (lenMs C : ℕ) (oracle : ℕ → ChunkOutcome) :
    transcribe_audio lenMs C oracle =
      String.intercalate spaceStr
        ((List.range (numChunks lenMs C)).filterMap (fun i => recognizedText (oracle i))) := by
  unfold transcribe_audio
  rw [chunkTexts_eq_filterMap]

/-! ### Audio batch driver (audioToText2.py lines 61-114)
Per-file external behaviour is an oracle on each `AudioItem`:
`convOk` is whether `convert_to_wav`'s pydub calls succeed, and
`transcription` is `some t` when `transcribe_audio` returns transcript
`t` and `none` when it raises.  The driver state tracks the Python
local `wav_file` (`none` models "never assigned"), whether the
`temp.wav` file currently exists on disk, the `all_transcripts`
accumulator and every path passed to `os.remove`.  The `finally` block
reads `wav_file` even when the very first conversion raised before the
assignment, which in Python raises an uncaught `NameError`; the model
returns `Except.error` carrying the state at that point. -/

def convErrMsg : String := "Error converting audio"

/-- audioToText2.py lines 6-13; `main` calls it with the default
`output_file="temp.wav"`. -/
def convert_to_wav (inputFile outputFile : String) (convOk : Bool) : Except String String :=
  if convOk then Except.ok outputFile else Except.error convErrMsg

def transcriptHeaderA : String := "\n\n--- TRANSCRIPT FOR: "

def transcriptHeaderB : String := " ---\n\n"

/-- The labelled per-file section appended to `all_transcripts`
(audioToText2.py lines 91-98). -/
def sectionFor (name t : String) : String :=
  transcriptHeaderA ++ name ++ transcriptHeaderB ++ t

structure AudioItem where
  name : String
  convOk : Bool
  transcription : Option String

structure AudioState where
  wavFile : Option String
  tempExists : Bool
  transcripts : List String
  removed : List String

/-- The `try` body (audioToText2.py lines 86-103): on a conversion
error `wav_file` keeps whatever binding it had (none on the first
file); otherwise `wav_file` is bound to `temp.wav`, which now exists,
and on a successful transcription the labelled section is appended. -/
def audioTryBody (fullPath : String) (st : AudioState) (it : AudioItem) : AudioState :=
  match convert_to_wav fullPath tempWav it.convOk with
  | Except.error _ => st
  | Except.ok w =>
      match it.transcription with
      | none => { st with wavFile := some w, tempExists := true }
      | some t =>
          { st with wavFile := some w, tempExists := true,
                    transcripts := st.transcripts ++ [sectionFor it.name t] }

/-- The `finally` block (audioToText2.py lines 105-108): evaluating
`wav_file` when it was never assigned raises `NameError` (modelled as
`Except.error`); otherwise `os.remove` runs exactly when
`wav_file != full_path and os.path.exists(wav_file)`. -/
def audioFinally (fullPath : String) (st1 : AudioState) : Except AudioState AudioState :=
  match st1.wavFile with
  | none => Except.error st1
  | some w =>
      if w ≠ fullPath ∧ st1.tempExists then
        Except.ok { st1 with tempExists := false, removed := st1.removed ++ [w] }
      else Except.ok st1

def audioStep (inputFolder : String) (st : AudioState) (it : AudioItem) :
    Except AudioState AudioState :=
  audioFinally (pyJoin inputFolder it.name) (audioTryBody (pyJoin inputFolder it.name) st it)

def audioLoop (inputFolder : String) : AudioState → List AudioItem → Except AudioState AudioState
  | st, [] => Except.ok st
  | st, it :: rest =>
      match audioStep inputFolder st it with
      | Except.error st2 => Except.error st2
      | Except.ok st2 => audioLoop inputFolder st2 rest

structure AudioResult where
  transcripts : List String
  removed : List String
  written : Option String
  aborted : Bool

/-- audioToText2.py lines 61-114: filter/early-return, the per-file
loop, then `"\n".join(all_transcripts)` written to the combined output
file — which never happens when the loop dies with `NameError`. -/
def audioMain (inputFolder : String) (items : List AudioItem) : AudioResult :=
  if items.isEmpty then ⟨[], [], none, false⟩
  else
    match audioLoop inputFolder ⟨none, false, [], []⟩ items with
    | Except.error st => ⟨st.transcripts, st.removed, none, true⟩
    | Except.ok st =>
        ⟨st.transcripts, st.removed, some (String.intercalate nlStr st.transcripts), false⟩

def recFolder : String := "recordings"

def badMp3 : String := "bad.mp3"

def goodMp3 : String := "good.mp3"

def helloT : String := "hello world"

/-- C1 (code bug): when the FIRST file's conversion raises, the
`finally` block reads the never-assigned `wav_file`, so the whole
batch dies with `NameError` and no combined output is written — even
though a later file would have transcribed fine.  The claimed
log-and-continue behaviour does hold when the failing file is not the
first: with the same two files in the opposite order the batch
completes and the output contains exactly the non-failed file's
section. -/
theorem audio_batch_first_file_conversion_failure_aborts :
    audioMain recFolder
        [⟨badMp3, false, none⟩, ⟨goodMp3, true, some helloT⟩] =
      ⟨[], [], none, true⟩
    ∧ audioMain recFolder
        [⟨goodMp3, true, some helloT⟩, ⟨badMp3, false, none⟩] =
      ⟨[sectionFor goodMp3 helloT], [tempWav],
        some (String.intercalate nlStr [sectionFor goodMp3 helloT]), false⟩ :=
  ⟨rfl, rfl⟩

/-! ### Cleanup safety (C10) -/

def audioStateInv (st : AudioState) : Prop :=
  (st.wavFile = none ∨ st.wavFile = some tempWav) ∧ ∀ p ∈ st.removed, p = tempWav

def loopEnd (e : Except AudioState AudioState) : AudioState :=
  match e with
  | Except.error st => st
  | Except.ok st => st

lemma audioTryBody_inv (fullPath : String) (st : AudioState) (it : AudioItem)
    (h : audioStateInv st) : audioStateInv (audioTryBody fullPath st it) := by
  rcases h with ⟨h1, h2⟩
  unfold audioTryBody convert_to_wav
  cases it.convOk <;> cases it.transcription <;>
    first
      | exact ⟨h1, h2⟩
      | exact ⟨Or.inr rfl, h2⟩

lemma audioFinally_inv (fullPath : String) (st1 : AudioState)
    (h : audioStateInv st1) : audioStateInv (loopEnd (audioFinally fullPath st1)) := by
  rcases h with ⟨h1, h2⟩
  rcases h1 with h1 | h1
  · simp only [audioFinally, h1, loopEnd]
    exact ⟨Or.inl h1, h2⟩
  · by_cases hc : tempWav ≠ fullPath ∧ st1.tempExists = true
    · simp only [audioFinally, h1, if_pos hc, loopEnd]
      refine ⟨Or.inr rfl, ?_⟩
      intro p hp
      simp only [List.mem_append, List.mem_singleton] at hp
      rcases hp with hp | hp
      · exact h2 p hp
      · exact hp
    · simp only [audioFinally, h1, if_neg hc, loopEnd]
      exact ⟨Or.inr h1, h2⟩

lemma audioLoop_inv (inputFolder : String) (items : List AudioItem) :
    ∀ st, audioStateInv st → audioStateInv (loopEnd (audioLoop inputFolder st items)) := by
  induction items with
  | nil => intro st h; simpa [audioLoop, loopEnd]
  | cons it rest ih =>
      intro st h
      have hstep : audioStateInv (loopEnd (audioStep inputFolder st it)) :=
        audioFinally_inv _ _ (audioTryBody_inv _ _ _ h)
      unfold audioLoop
      cases hs : audioStep inputFolder st it with
      | error st2 =>
          rw [hs] at hstep
          simpa [loopEnd] using hstep
      | ok st2 =>
          rw [hs] at hstep
          simp only [loopEnd] at hstep
          simpa [loopEnd] using ih st2 hstep

lemma audioMain_removed_inv (inputFolder : String) (items : List AudioItem) :
    ∀ p ∈ (audioMain inputFolder items).removed, p = tempWav := by
  unfold audioMain
  by_cases he : items.isEmpty
  · simp [he]
  · rw [if_neg he]
    have hinv := audioLoop_inv inputFolder items ⟨none, false, [], []⟩
      (by exact ⟨Or.inl rfl, by simp⟩)
    cases hl : audioLoop inputFolder ⟨none, false, [], []⟩ items with
    | error st =>
        rw [hl] at hinv
        simpa [loopEnd] using hinv.2
    | ok st =>
        rw [hl] at hinv
        simpa [loopEnd] using hinv.2

/-- C10: `convert_to_wav` always writes to the fixed default path
`temp.wav` (also for inputs already in WAV format — they are
re-encoded to the copy, never used in place), so the returned path
differs from any input path other than `temp.wav` itself; and as long
as no discovered file resolves to the working directory's `temp.wav`,
every path the driver ever removes is the temporary copy and never a
discovered input file. -/
theorem temp_wav_cleanup_safety (inputFolder : String) (items : List AudioItem)
    (h : ∀ it ∈ items, pyJoin inputFolder it.name ≠ tempWav) :
    (∀ input : String, convert_to_wav input tempWav true = Except.ok tempWav)
    ∧ (∀ input r : String, input ≠ tempWav →
        convert_to_wav input tempWav true = Except.ok r → r ≠ input)
    ∧ (∀ p ∈ (audioMain inputFolder items).removed,
        p = tempWav ∧ ∀ it ∈ items, p ≠ pyJoin inputFolder it.name) := by
  refine ⟨fun input => rfl, ?_, ?_⟩
  · intro input r hne hok
    have hrt : tempWav = r := by
      simpa [convert_to_wav] using hok
    rw [← hrt]
    exact fun hcon => hne hcon.symm
  · intro p hp
    have hptemp : p = tempWav := audioMain_removed_inv inputFolder items p hp
    refine ⟨hptemp, fun it hit => ?_⟩
    rw [hptemp]
    exact fun hcon => h it hit hcon.symm

def songPath : String := "recordings/song.wav"

/-- Witness for C10 at a concrete input: a folder with one good file;
the conversion writes `temp.wav` and returns it. -/
theorem temp_wav_cleanup_safety_witness :
    convert_to_wav songPath tempWav true = Except.ok tempWav :=
  (temp_wav_cleanup_safety recFolder [⟨goodMp3, true, some helloT⟩] (by decide)).1
    songPath

/-! ### ffmpeg progress parsing (VideoToAudio.py lines 79-101)
One iteration of the stderr-polling loop body, for one line read from
the stream.  The source checks `'time=' in line`, then evaluates
`line.split('time=')[1].split()[0].split(':')` — the `[1]` indexing is
safe because the marker is present, but the `[0]` indexing sits
OUTSIDE the `try` block and raises an uncaught `IndexError` when no
token follows the first marker; this is modelled as `Except.error ()`.
When three colon-separated fields are found, the seconds field is
truncated at the first dot and the three fields go through `float()`
(modelled by `parseNat`, see there); a `ValueError` is caught and the
line is skipped.  The elapsed time is `h*3600 + m*60 + s` seconds,
always a natural number here.  `int(x)` truncates toward zero, which
for the nonnegative values that arise is the floor. -/

def parseTimestamp (line : String) : Except Unit (Option ℕ) :=
  match pySplitOn line timeMarker with
  | _ :: after :: _ =>
      match pySplitWs after with
      | [] => Except.error ()
      | tok :: _ =>
          match pySplitOn tok colonStr with
          | [hh, mm, ss] =>
              let ss2 := match pySplitOn ss dotStr with
                         | s0 :: _ :: _ => s0
                         | _ => ss
              match parseNat hh, parseNat mm, parseNat ss2 with
              | some hv, some mv, some sv => Except.ok (some (hv * 3600 + mv * 60 + sv))
              | _, _, _ => Except.ok none
          | _ => Except.ok none
  | _ => Except.ok none

/-- `min(int((current_time / duration) * 100), 100)` (line 92). -/
def progressOf (duration : ℚ) (ct : ℕ) : ℕ :=
  min (Int.toNat ⌊((ct : ℚ) / duration) * 100⌋) 100

/-- `if progress > last_progress: last_progress = progress` (95-97). -/
def stepProgress (lp p : ℕ) : ℕ := if p > lp then p else lp

def processLine (duration : ℚ) (lp : ℕ) (line : String) : Except Unit ℕ :=
  match parseTimestamp line with
  | Except.error e => Except.error e
  | Except.ok none => Except.ok lp
  | Except.ok (some ct) => Except.ok (stepProgress lp (progressOf duration ct))

def runLines (duration : ℚ) : ℕ → List String → Except Unit ℕ
  | lp, [] => Except.ok lp
  | lp, l :: ls =>
      match processLine duration lp l with
      | Except.error e => Except.error e
      | Except.ok lp2 => runLines duration lp2 ls

def ffLine50 : String := "size=     256kB time=00:01:30.50 bitrate= 128.0kbits/s speed=2.5x"

def lineNoMarker : String := "frame=  100 fps=25 q=28.0 size=     256kB"

def lineBadTs : String := "size=     256kB time=aa:bb:cc bitrate= 128.0kbits/s"

def lineBareMarker : String := "time="

/-- C5: a status line carrying `time=00:01:30.50` against a 180-second
total parses to 90 elapsed seconds and yields a 50% estimate; a line
without the marker, or one whose timestamp fields fail to parse,
leaves the previous estimate unchanged.  BUT a line where no token
follows the marker (the bare `time=`) makes the `[0]` indexing outside
the `try` raise an uncaught `IndexError`, killing `extract_audio` —
the "never causes extract_audio to fail" part of the claim is a code
bug. -/
theorem progress_line_parsing_cases :
    processLine 180 0 ffLine50 = Except.ok 50
    ∧ (∀ lp : ℕ, processLine 180 lp lineNoMarker = Except.ok lp)
    ∧ (∀ lp : ℕ, processLine 180 lp lineBadTs = Except.ok lp)
    ∧ processLine 180 0 lineBareMarker = Except.error () := by
  refine ⟨?_, fun lp => rfl, fun lp => rfl, rfl⟩
  have hts : parseTimestamp ffLine50 = Except.ok (some 90) := rfl
  have hq : ((90 : ℕ) : ℚ) / 180 * 100 = ((50 : ℤ) : ℚ) := by norm_num
  have hfloor : ⌊((90 : ℕ) : ℚ) / 180 * 100⌋ = 50 := by
    rw [hq, Int.floor_intCast]
  have hp : progressOf 180 90 = 50 := by
    unfold progressOf
    rw [hfloor]
    rfl
  simp only [processLine, hts, hp]
  rfl

/-! ### Progress invariant (C6) -/

lemma processLine_ok_bounds (duration : ℚ) (lp lp2 : ℕ) (line : String)
    (h : processLine duration lp line = Except.ok lp2) :
    lp ≤ lp2 ∧ (lp ≤ 100 → lp2 ≤ 100) := by
  unfold processLine at h
  cases hts : parseTimestamp line with
  | error e => rw [hts] at h; cases h
  | ok o =>
      rw [hts] at h
      cases o with
      | none =>
          have : lp = lp2 := by injection h
          subst this
          exact ⟨le_refl _, fun h100 => h100⟩
      | some ct =>
          have hlp2 : stepProgress lp (progressOf duration ct) = lp2 := by injection h
          subst hlp2
          constructor
          · unfold stepProgress
            split <;> omega
          · intro h100
            unfold stepProgress
            split
            · exact le_trans (min_le_right _ _) (le_refl 100)
            · exact h100

lemma runLines_bounds (duration : ℚ) (lines : List String) :
    ∀ lp lp2, lp ≤ 100 → runLines duration lp lines = Except.ok lp2 →
      lp ≤ lp2 ∧ lp2 ≤ 100 := by
  induction lines with
  | nil =>
      intro lp lp2 h0 h
      have : lp = lp2 := by
        unfold runLines at h
        injection h
      subst this
      exact ⟨le_refl _, h0⟩
  | cons l ls ih =>
      intro lp lp2 h0 h
      unfold runLines at h
      cases hpl : processLine duration lp l with
      | error e => rw [hpl] at h; cases h
      | ok lpm =>
          rw [hpl] at h
          have hb := processLine_ok_bounds duration lp lpm l hpl
          have hrest := ih lpm lp2 (hb.2 h0) h
          exact ⟨le_trans hb.1 hrest.1, hrest.2⟩

/-- C6: across any sequence of status lines processed in one
`extract_audio` run, the `last_progress` estimate never decreases and
stays within 0..100 — a parsed percentage not above the current value
is ignored by the `progress > last_progress` guard, and `min(.., 100)`
clamps values above 100.  (The 0 lower bound holds by construction:
the estimate is a natural number starting at 0.) -/
theorem progress_monotone_bounded (duration : ℚ) (lp lp2 : ℕ) (lines : List String)
    (h0 : lp ≤ 100) (h : runLines duration lp lines = Except.ok lp2) :
    lp ≤ lp2 ∧ lp2 ≤ 100 :=
  runLines_bounds duration lines lp lp2 h0 h

/-- Witness for C6 on a concrete run (one marker-free line). -/
theorem progress_monotone_bounded_witness : 0 ≤ 0 ∧ 0 ≤ 100 :=
  progress_monotone_bounded 180 0 0 [lineNoMarker] (by decide) rfl

/-! ### Duration probe and audio extraction (VideoToAudio.py 8-113)
`subprocess.check_output` of ffprobe is abstracted to a `ProbeResult`:
either the tool fails (nonzero exit raises `CalledProcessError`) or it
yields a parsed duration.  `extract_audio`'s external behaviour is an
`ExtractEnv`: the probe outcome, the stderr status lines the polling
loop reads, and ffmpeg's exit code.  The tqdm bar, `os.makedirs`, the
codec map and the command construction have no bearing on the claims
and are not modelled; `ExtractOutcome.ffmpegInvoked` records whether
the transcoder was launched at all. -/

inductive ProbeResult where
  | failure
  | ok (duration : ℚ)

def durationErrPre : String := "Error getting duration for "

/-- VideoToAudio.py lines 8-22: returns the parsed duration, or logs
the error and returns 0 when ffprobe exits nonzero. -/
def get_video_duration (videoPath : String) (probe : ProbeResult) : ℚ × List String :=
  match probe with
  | ProbeResult.ok d => (d, [])
  | ProbeResult.failure => (0, [durationErrPre ++ videoPath])

structure ExtractEnv where
  probe : ProbeResult
  statusLines : List String
  exitCode : ℤ

structure ExtractOutcome where
  success : Bool
  ffmpegInvoked : Bool

/-- VideoToAudio.py lines 24-113: probe the duration, short-circuit on
0, otherwise run ffmpeg, scan its stderr lines for progress (where the
bare-marker `IndexError` can escape), and return `returncode == 0`. -/
def extract_audio (videoPath : String) (env : ExtractEnv) : Except Unit ExtractOutcome :=
  let dur := (get_video_duration videoPath env.probe).1
  if dur = 0 then Except.ok ⟨false, false⟩
  else
    match runLines dur 0 env.statusLines with
    | Except.error e => Except.error e
    | Except.ok _ => Except.ok ⟨decide (env.exitCode = 0), true⟩

/-- C7: a failing ffprobe makes `get_video_duration` log an error line
and return 0, and whenever the probed duration is 0 `extract_audio`
returns failure without ever launching the transcoder. -/
theorem duration_probe_failure_short_circuit (videoPath : String) (env : ExtractEnv) :
    get_video_duration videoPath ProbeResult.failure = (0, [durationErrPre ++ videoPath])
    ∧ ((get_video_duration videoPath env.probe).1 = 0 →
        extract_audio videoPath env = Except.ok ⟨false, false⟩) := by
  refine ⟨rfl, fun h => ?_⟩
  simp [extract_audio, h]

def clipPath : String := "clips/a.mp4"

def probeFailEnv : ExtractEnv := ⟨ProbeResult.failure, [], 0⟩

/-- Witness for C7 at a concrete input. -/
theorem duration_probe_failure_short_circuit_witness :
    extract_audio clipPath probeFailEnv = Except.ok ⟨false, false⟩ :=
  (duration_probe_failure_short_circuit clipPath probeFailEnv).2 rfl

/-! ### Video batch driver (VideoToAudio.py lines 115-167)
Directory paths are component lists joined with `/`.  A discovered
video file is its walk subdirectory components below the input root
plus its base name, with an `ExtractEnv` oracle for its extraction.
Filesystem writes (`os.makedirs`) and extractor invocations are
recorded as ordered events.  Console output is modelled only for the
lines the properties mention (the no-files message, the found-count
line and the final summary; `os.path.abspath` is modelled as the
identity on the given folder path, normalisation being a filesystem
concern). -/

def pathJoin (ps : List String) : String := String.intercalate slashStr ps

structure VideoItem where
  dirs : List String
  name : String
  env : ExtractEnv

inductive DriverEvent where
  | mkdirs (path : List String)
  | extractCall (input output : List String)

def noFilesPre : String := "No video files found in "

def foundPreA : String := "Found "

def foundPreB : String := " video files to process"

def doneMsg : String := "Extraction complete!"

def okCountPre : String := "Successful extractions: "

def failCountPre : String := "Failed extractions: "

def outFolderPre : String := "Output folder: "

def summaryLines (s f : ℕ) (outputFolder : List String) : List String :=
  [doneMsg, okCountPre ++ toString s, failCountPre ++ toString f,
   outFolderPre ++ pathJoin outputFolder]

def itemInput (inputFolder : List String) (it : VideoItem) : List String :=
  inputFolder ++ it.dirs ++ [it.name]

/-- VideoToAudio.py lines 152-153: `rel_path = os.path.relpath(video_path,
input_folder)` is `dirs ++ [name]` for a walk-discovered file, and
`output_path = os.path.join(output_folder, os.path.splitext(rel_path)[0]
+ "." + audio_format)`; `splitext` on a path splits the final
component. -/
def itemOutput (outputFolder : List String) (fmt : String) (it : VideoItem) : List String :=
  outputFolder ++ it.dirs ++ [splitextRoot it.name ++ dotStr ++ fmt]

def itemResult (inputFolder : List String) (it : VideoItem) : Except Unit ExtractOutcome :=
  extract_audio (pathJoin (itemInput inputFolder it)) it.env

def itemFails (inputFolder : List String) (it : VideoItem) : Bool :=
  match itemResult inputFolder it with
  | Except.ok o => !o.success
  | Except.error _ => true

/-- The per-file loop (lines 148-162): `os.makedirs` on the output
file's directory, then `extract_audio`, counting successes and
failures.  An exception escaping `extract_audio` propagates. -/
def processGo (inputFolder outputFolder : List String) (fmt : String) :
    List VideoItem → ℕ → ℕ → List DriverEvent → List DriverEvent × Except Unit (ℕ × ℕ)
  | [], s, f, evs => (evs, Except.ok (s, f))
  | it :: rest, s, f, evs =>
      let evs2 := evs ++ [DriverEvent.mkdirs (itemOutput outputFolder fmt it).dropLast,
                          DriverEvent.extractCall (itemInput inputFolder it)
                            (itemOutput outputFolder fmt it)]
      match itemResult inputFolder it with
      | Except.error e => (evs2, Except.error e)
      | Except.ok o =>
          if o.success then processGo inputFolder outputFolder fmt rest (s + 1) f evs2
          else processGo inputFolder outputFolder fmt rest s (f + 1) evs2

structure DriverResult where
  events : List DriverEvent
  printed : List String
  outcome : Except Unit (Option (ℕ × ℕ))

/-- VideoToAudio.py lines 115-167: `os.makedirs(output_folder)`, the
discovery early-return ("No video files found", no counters, no
summary), otherwise the counting loop followed by the summary print.
`outcome` is `none` when the function returned before the counters
existed. -/
def process_video_folder (inputFolder outputFolder : List String) (fmt : String)
    (items : List VideoItem) : DriverResult :=
  if items.isEmpty then
    ⟨[DriverEvent.mkdirs outputFolder], [noFilesPre ++ pathJoin inputFolder], Except.ok none⟩
  else
    match processGo inputFolder outputFolder fmt items 0 0 [DriverEvent.mkdirs outputFolder] with
    | (evs, Except.error e) =>
        ⟨evs, [foundPreA ++ toString items.length ++ foundPreB], Except.error e⟩
    | (evs, Except.ok (s, f)) =>
        ⟨evs, [foundPreA ++ toString items.length ++ foundPreB] ++ summaryLines s f outputFolder,
          Except.ok (some (s, f))⟩

def demoIn : List String := ["videos"]

def demoOut : List String := ["audio_out"]

def mp3Fmt : String := "mp3"

/-- C8 counterexample: with zero discovered files the driver returns
through the early "No video files found" branch — the counters are
never created and no final summary is printed, contradicting the
claim's "for every N". -/
theorem video_batch_empty_input_no_summary :
    process_video_folder demoIn demoOut mp3Fmt [] =
      ⟨[DriverEvent.mkdirs demoOut], [noFilesPre ++ pathJoin demoIn], Except.ok none⟩
    ∧ doneMsg ∉ (process_video_folder demoIn demoOut mp3Fmt []).printed := by
  refine ⟨rfl, ?_⟩
  decide

lemma length_filter_not_split {α : Type} (p : α → Bool) (l : List α) :
    (l.filter p).length + (l.filter (fun a => !(p a))).length = l.length := by
  induction l with
  | nil => simp
  | cons a l ih =>
      cases ha : p a <;> simp [List.filter_cons, ha] <;> omega

lemma processGo_counts (inputFolder outputFolder : List String) (fmt : String)
    (items : List VideoItem) :
    ∀ s f evs, (∀ it ∈ items, ∃ o, itemResult inputFolder it = Except.ok o) →
      (processGo inputFolder outputFolder fmt items s f evs).2 =
        Except.ok (s + (items.filter (fun it => !(itemFails inputFolder it))).length,
                   f + (items.filter (fun it => itemFails inputFolder it)).length) := by
  induction items with
  | nil =>
      intro s f evs _
      simp [processGo]
  | cons it rest ih =>
      intro s f evs h
      obtain ⟨o, ho⟩ := h it (by simp)
      have hfails : itemFails inputFolder it = !o.success := by
        unfold itemFails
        rw [ho]
      have hrest : ∀ it2 ∈ rest, ∃ o2, itemResult inputFolder it2 = Except.ok o2 :=
        fun it2 hit2 => h it2 (by simp [hit2])
      cases hs : o.success
      · -- failure: failed += 1
        have hf : itemFails inputFolder it = true := by rw [hfails, hs]; rfl
        simp only [processGo, ho, hs, Bool.false_eq_true, if_false, if_true,
          eq_self_iff_true, List.filter_cons, hf, Bool.not_true, List.length_cons]
        rw [ih s (f + 1) _ hrest]
        congr 1
        rw [Prod.ext_iff]
        refine ⟨rfl, ?_⟩
        simp only []
        omega
      · -- success: successful += 1
        have hf : itemFails inputFolder it = false := by rw [hfails, hs]; rfl
        simp only [processGo, ho, hs, Bool.false_eq_true, if_false, if_true,
          eq_self_iff_true, List.filter_cons, hf, Bool.not_false, List.length_cons]
        rw [ih (s + 1) f _ hrest]
        congr 1
        rw [Prod.ext_iff]
        refine ⟨?_, rfl⟩
        simp only []
        omega

/-- C8 (amended to N ≥ 1 discovered files — with zero files the driver
returns early with "No video files found" and prints no summary): the
loop runs over all N files without aborting (granted that each
`extract_audio` call returns rather than raises, see C5), the final
failure counter equals the number K of failing files, the success
counter equals N − K, the two sum to N, and the driver prints the
found-count line followed by the summary with both counters and the
output folder path. -/
theorem video_batch_counters_amended (inputFolder outputFolder : List String) (fmt : String)
    (items : List VideoItem) (hne : items ≠ [])
    (hok : ∀ it ∈ items, ∃ o, itemResult inputFolder it = Except.ok o) :
    (process_video_folder inputFolder outputFolder fmt items).outcome =
      Except.ok (some
        (items.length - (items.filter (fun it => itemFails inputFolder it)).length,
         (items.filter (fun it => itemFails inputFolder it)).length))
    ∧ (items.length - (items.filter (fun it => itemFails inputFolder it)).length)
        + (items.filter (fun it => itemFails inputFolder it)).length = items.length
    ∧ (process_video_folder inputFolder outputFolder fmt items).printed =
        [foundPreA ++ toString items.length ++ foundPreB]
          ++ summaryLines
              (items.length - (items.filter (fun it => itemFails inputFolder it)).length)
              ((items.filter (fun it => itemFails inputFolder it)).length) outputFolder := by
  have hsplit := length_filter_not_split (fun it => itemFails inputFolder it) items
  have hcounts := processGo_counts inputFolder outputFolder fmt items 0 0
      [DriverEvent.mkdirs outputFolder] hok
  set K := (items.filter (fun it => itemFails inputFolder it)).length with hK
  set S := (items.filter (fun it => !(itemFails inputFolder it))).length with hS
  have hSK : S = items.length - K := by omega
  have hempty : items.isEmpty = false := by
    cases items with
    | nil => exact absurd rfl hne
    | cons a l => rfl
  unfold process_video_folder
  rcases hpg : processGo inputFolder outputFolder fmt items 0 0
      [DriverEvent.mkdirs outputFolder] with ⟨evs, out⟩
  rw [hpg] at hcounts
  have hout : out = Except.ok (0 + S, 0 + K) := hcounts
  subst hout
  simp only [hempty, Bool.false_eq_true, if_false, hpg]
  refine ⟨?_, by omega, ?_⟩
  · simp only [Nat.zero_add, hSK]
  · simp only [Nat.zero_add, hSK]

def demoItem : VideoItem := ⟨[], "clip.mp4", probeFailEnv⟩

/-- Witness for C8 at a concrete input: one file whose duration probe
fails, so its extraction returns failure; the counters are 0 and 1 and
sum to the file count. -/
theorem video_batch_counters_amended_witness :
    ([demoItem].length - ([demoItem].filter (fun it => itemFails demoIn it)).length)
      + ([demoItem].filter (fun it => itemFails demoIn it)).length = [demoItem].length :=
  (video_batch_counters_amended demoIn demoOut mp3Fmt [demoItem]
    (List.cons_ne_nil demoItem [])
    (fun it hit => by
      rw [List.mem_singleton] at hit
      subst hit
      exact ⟨⟨false, false⟩, rfl⟩)).2.1

/-! ### Output path derivation (C9) -/

lemma processGo_singleton_events (inputFolder outputFolder : List String) (fmt : String)
    (it : VideoItem) (s f : ℕ) (evs : List DriverEvent) :
    (processGo inputFolder outputFolder fmt [it] s f evs).1 =
      evs ++ [DriverEvent.mkdirs (itemOutput outputFolder fmt it).dropLast,
              DriverEvent.extractCall (itemInput inputFolder it)
                (itemOutput outputFolder fmt it)] := by
  unfold processGo
  cases hres : itemResult inputFolder it with
  | error e => simp [hres]
  | ok o => cases hs : o.success <;> simp [processGo, hres, hs]

def aDir : String := "a"

def bMovName : String := "b.mov"

def bStem : String := "b"

/-- C9: for a file discovered at relative path `a/b.mov` below input
root R, the driver derives the output path `O/a/b.<fmt>` — the walk's
subdirectory structure is mirrored below the output root and the
extension is replaced by the target format (for `mp3`, `b.mov ↦
b.mp3`) — and the `os.makedirs` calls (on the output root, then on the
output file's directory) are issued before the extractor is invoked,
whatever that invocation then does. -/
theorem video_output_path_derivation (inputFolder outputFolder : List String)
    (fmt : String) (env : ExtractEnv) :
    (process_video_folder inputFolder outputFolder fmt [⟨[aDir], bMovName, env⟩]).events =
      [DriverEvent.mkdirs outputFolder,
       DriverEvent.mkdirs (outputFolder ++ [aDir]),
       DriverEvent.extractCall (inputFolder ++ [aDir, bMovName])
         (outputFolder ++ [aDir, bStem ++ dotStr ++ fmt])] := by
  have hroot : splitextRoot bMovName = bStem := rfl
  have hout : itemOutput outputFolder fmt ⟨[aDir], bMovName, env⟩
      = (outputFolder ++ [aDir]) ++ [bStem ++ dotStr ++ fmt] := by
    show outputFolder ++ [aDir] ++ [splitextRoot bMovName ++ dotStr ++ fmt]
        = (outputFolder ++ [aDir]) ++ [bStem ++ dotStr ++ fmt]
    rw [hroot]
  have hdrop : (itemOutput outputFolder fmt ⟨[aDir], bMovName, env⟩).dropLast
      = outputFolder ++ [aDir] := by
    rw [hout, List.dropLast_concat]
  have hin : itemInput inputFolder ⟨[aDir], bMovName, env⟩
      = inputFolder ++ [aDir, bMovName] := by
    show inputFolder ++ [aDir] ++ [bMovName] = inputFolder ++ [aDir, bMovName]
    rw [List.append_assoc]
    rfl
  have hout2 : itemOutput outputFolder fmt ⟨[aDir], bMovName, env⟩
      = outputFolder ++ [aDir, bStem ++ dotStr ++ fmt] := by
    rw [hout, List.append_assoc]
    rfl
  have hevents := processGo_singleton_events inputFolder outputFolder fmt
      ⟨[aDir], bMovName, env⟩ 0 0 [DriverEvent.mkdirs outputFolder]
  rw [hdrop, hin, hout2] at hevents
  unfold process_video_folder
  rcases hpg : processGo inputFolder outputFolder fmt [⟨[aDir], bMovName, env⟩] 0 0
      [DriverEvent.mkdirs outputFolder] with ⟨evs, out⟩
  rw [hpg] at hevents
  have hevs : evs = [DriverEvent.mkdirs outputFolder]
      ++ [DriverEvent.mkdirs (outputFolder ++ [aDir]),
          DriverEvent.extractCall (inputFolder ++ [aDir, bMovName])
            (outputFolder ++ [aDir, bStem ++ dotStr ++ fmt])] := hevents
  simp only [show (([⟨[aDir], bMovName, env⟩] : List VideoItem).isEmpty) = false from rfl,
    Bool.false_eq_true, if_false, hpg]
  cases out with
  | error e => simpa using hevs
  | ok p =>
      rcases p with ⟨s, f⟩
      simpa using hevs
